import Mathlib

/-!
Shallow embedding of the risk-validation core of a volatility analytics
repository: parametric VaR/CVaR, breach detection, the Kupiec and
Christoffersen regulatory backtests, the rolling Basel traffic-light
classifier, volatility calibration and fixed-window stress statistics.

Series are modelled as lists of real values (date-indexed pairs where a
behaviour depends on the index).  A pandas NaN outcome is modelled as
`none` in an `Option ℝ`.  External scipy functions with no closed form
(quantile functions, the chi-squared cdf) are taken as function
parameters of the embedded definitions.
-/

set_option autoImplicit false

/-- Model of pandas Series.mean: NaN (`none`) on an empty series, otherwise
the arithmetic mean. -/
noncomputable def pmeanO (xs : List ℝ) : Option ℝ :=
  if xs = [] then none else some (xs.sum / xs.length)

/-- Model of pandas Series.min: NaN (`none`) on an empty series, otherwise
the least entry. -/
noncomputable def pminO : List ℝ → Option ℝ
  | [] => none
  | x :: xs => some (xs.foldl min x)

/-- Model of pandas Series.sum: the sum of the entries, which is 0 (not
NaN) on an empty float series. -/
def psumO (xs : List ℝ) : Option ℝ := some xs.sum

/-- Arithmetic mean as a plain real value, for places where the source
feeds the mean into further float arithmetic. -/
noncomputable def pmeanR (xs : List ℝ) : ℝ := xs.sum / xs.length

/-- Model of pandas Series.std (ddof = 1): square root of the sum of
squared deviations from the mean divided by (n - 1). -/
noncomputable def pstdR (xs : List ℝ) : ℝ :=
  Real.sqrt ((xs.map (fun x => (x - pmeanR xs) ^ 2)).sum / ((xs.length : ℝ) - 1))

/-- Result record of the Kupiec proportion-of-failures test, mirroring the
dict returned by kupiec_pof_test; NaN statistic and p-value are `none`. -/
structure KupiecResult where
  LR_stat : Option ℝ
  p_value : Option ℝ
  breaches : ℕ
  expected : ℝ

/-- Embedding of kupiec_pof_test from src/src/backtests.py.  The breach
indicator series is a list of booleans (astype(int) maps it to 0/1), T is
its length, x the breach count and p = 1 - alpha.  The scipy chi-squared
cdf with one degree of freedom is the parameter chi2cdf. -/
noncomputable def kupiec_pof_test (chi2cdf : ℝ → ℝ) (breaches : List Bool)
    (alpha : ℝ) : KupiecResult :=
  let T : ℕ := breaches.length
  let x : ℕ := breaches.countP (fun b => b)
  let p : ℝ := 1 - alpha
  if x = 0 ∨ x = T then
    { LR_stat := none, p_value := none, breaches := x, expected := (T : ℝ) * p }
  else
    let LR : ℝ := -2 * ((((T : ℝ) - (x : ℝ)) * Real.log (1 - p) + (x : ℝ) * Real.log p)
      - (((T : ℝ) - (x : ℝ)) * Real.log (1 - (x : ℝ) / (T : ℝ))
        + (x : ℝ) * Real.log ((x : ℝ) / (T : ℝ))))
    { LR_stat := some LR, p_value := some (1 - chi2cdf LR),
      breaches := x, expected := (T : ℝ) * p }

/-- Body of the transition-count loop of christoffersen_test: one step
updates the running counts (n00, n01, n10, n11) according to the
(previous, current) pair of indicator values. -/
def transStep (c : ℕ × ℕ × ℕ × ℕ) (pc : Bool × Bool) : ℕ × ℕ × ℕ × ℕ :=
  match pc with
  | (false, false) => (c.1 + 1, c.2.1, c.2.2.1, c.2.2.2)
  | (false, true) => (c.1, c.2.1 + 1, c.2.2.1, c.2.2.2)
  | (true, false) => (c.1, c.2.1, c.2.2.1 + 1, c.2.2.2)
  | (true, true) => (c.1, c.2.1, c.2.2.1, c.2.2.2 + 1)

/-- Embedding of the transition-count loop of christoffersen_test: a fold
over the adjacent (previous, current) pairs of the indicator series; the
first observation has no predecessor and contributes no pair.  The counts
are returned in the order (n00, n01, n10, n11). -/
def countTransitions (bs : List Bool) : ℕ × ℕ × ℕ × ℕ :=
  (bs.zip bs.tail).foldl transStep (0, 0, 0, 0)

/-- Embedding of the safe_log helper inside christoffersen_test: the real
logarithm for positive arguments and 0 otherwise (the deliberate guarded
ln(0) = 0 convention of the source). -/
noncomputable def safe_log (x : ℝ) : ℝ := if x > 0 then Real.log x else 0

/-- Result record of the Christoffersen independence test. -/
structure ChristResult where
  LR_stat : ℝ
  p_value : ℝ

/-- Embedding of christoffersen_test from src/src/backtests.py.  The
conditional probabilities pi0 and pi1 are guarded on a zero denominator,
but the unconditional probability is an unguarded Python integer division:
when the series has no adjacent pair every count is 0 and the source
raises ZeroDivisionError, modelled as the error case. -/
noncomputable def christoffersen_test (chi2cdf : ℝ → ℝ) (breaches : List Bool) :
    Except String ChristResult :=
  let c := countTransitions breaches
  let n00 : ℕ := c.1
  let n01 : ℕ := c.2.1
  let n10 : ℕ := c.2.2.1
  let n11 : ℕ := c.2.2.2
  let pi0 : ℝ := if n00 + n01 > 0 then (n01 : ℝ) / ((n00 : ℝ) + (n01 : ℝ)) else 0
  let pi1 : ℝ := if n10 + n11 > 0 then (n11 : ℝ) / ((n10 : ℝ) + (n11 : ℝ)) else 0
  if n00 + n01 + n10 + n11 = 0 then
    Except.error "ZeroDivisionError"
  else
    let piu : ℝ := ((n01 : ℝ) + (n11 : ℝ))
      / ((n00 : ℝ) + (n01 : ℝ) + (n10 : ℝ) + (n11 : ℝ))
    let L0 : ℝ := ((n00 : ℝ) + (n10 : ℝ)) * safe_log (1 - piu)
      + ((n01 : ℝ) + (n11 : ℝ)) * safe_log piu
    let L1 : ℝ := (n00 : ℝ) * safe_log (1 - pi0) + (n01 : ℝ) * safe_log pi0
      + (n10 : ℝ) * safe_log (1 - pi1) + (n11 : ℝ) * safe_log pi1
    let LR : ℝ := -2 * (L0 - L1)
    Except.ok { LR_stat := LR, p_value := 1 - chi2cdf LR }

/-- Embedding of rolling_basel_traffic_light from src/src/backtests.py: for
each index i from window up to (excluding) the length, sum the indicator
over positions [i - window, i) and classify the count. -/
def rolling_basel_traffic_light (breaches : List Bool) (window : ℕ) : List String :=
  (List.range' window (breaches.length - window)).map (fun i =>
    let window_breaches := ((breaches.drop (i - window)).take window).countP (fun b => b)
    if window_breaches ≤ 4 then "GREEN"
    else if window_breaches ≤ 9 then "YELLOW"
    else "RED")

/-- Standard normal density, the closed form behind scipy norm.pdf. -/
noncomputable def normalPDF (x : ℝ) : ℝ :=
  Real.exp (-(x ^ 2) / 2) / Real.sqrt (2 * Real.pi)

/-- Standard normal cumulative distribution function, the integral of the
density over (-∞, x]; scipy norm.ppf at a confidence level alpha is
characterised as a point z with normalCDF z = alpha. -/
noncomputable def normalCDF (x : ℝ) : ℝ := ∫ t in Set.Iic x, normalPDF t

/-- Embedding of parametric_var_cvar from src/src/risk_metrics.py.  The
scipy quantile functions and the Student-t density have no closed form and
are parameters (normPpf, tPpf, tPdf); norm.pdf is the closed-form
normalPDF.  Series are value lists on a common aligned index, so the final
returns.loc selection on sigma's own index is the identity on the returns
list.  The source raises ValueError only for a missing nu or an unknown
dist tag; a supplied nu is consumed unvalidated (at nu = 1 the Python
float division by zero produces a non-finite value, not an exception). -/
noncomputable def parametric_var_cvar (returns sigma : List ℝ) (alpha : ℝ)
    (dist : String) (nu : Option ℝ) (normPpf : ℝ → ℝ) (tPpf tPdf : ℝ → ℝ → ℝ) :
    Except String (List ℝ × List ℝ × List ℝ) :=
  if dist = "normal" then
    let z := normPpf alpha
    Except.ok (returns, sigma.map (fun s => z * s),
      sigma.map (fun s => normalPDF z / (1 - alpha) * s))
  else if dist = "t" then
    match nu with
    | none => Except.error "nu must be provided for Student-t VaR"
    | some v =>
      let z := tPpf alpha v
      Except.ok (returns, sigma.map (fun s => z * s),
        sigma.map (fun s => tPdf z v / (1 - alpha) * ((v + z ^ 2) / (v - 1)) * s))
  else
    Except.error "dist must be normal or t"

/-- Embedding of var_breaches from src/src/risk_metrics.py: the indicator
is true where the return lies strictly below the negated VaR, and the rate
is the pandas mean of the indicator (NaN, modelled `none`, on an empty
series). -/
noncomputable def var_breaches (returns var : List ℝ) : List Bool × Option ℝ :=
  let breaches := (returns.zip var).map (fun p => if p.1 < -p.2 then true else false)
  (breaches, pmeanO (breaches.map (fun b => if b then (1 : ℝ) else 0)))

/-- Embedding of calibrate_volatility from src/src/risk_metrics.py.  The
scale is the float division std(returns) / mean(sigma); Python float
division by a zero mean yields a non-finite value without raising, which
the model represents as `none` propagated to every rescaled entry. -/
noncomputable def calibrate_volatility (returns sigma : List ℝ) : List (Option ℝ) :=
  let scale : Option ℝ :=
    if pmeanR sigma = 0 then none else some (pstdR returns / pmeanR sigma)
  sigma.map (fun s => scale.map (fun c => s * c))

/-- Label slice returns.loc[start:end] over a series indexed by strictly
increasing integer date labels: the values whose label lies in the
inclusive range [start, end]. -/
def locSlice (returns : List (ℕ × ℝ)) (start end_ : ℕ) : List ℝ :=
  (returns.filter (fun p => decide (start ≤ p.1 ∧ p.1 ≤ end_))).map (fun p => p.2)

/-- Stress record returned by stress_test_period, mirroring the dict keys
start/end/days/worst_day/cumulative_loss/avg_daily_loss. -/
structure StressRecord where
  start : ℕ
  end_ : ℕ
  days : ℕ
  worst_day : Option ℝ
  cumulative_loss : Option ℝ
  avg_daily_loss : Option ℝ

/-- Embedding of stress_test_period from src/src/stress_tests.py: slice
the returns to the window, then report pandas len, min, sum and mean of
the slice (min and mean are NaN on an empty slice, the sum is 0). -/
noncomputable def stress_test_period (returns : List (ℕ × ℝ)) (start end_ : ℕ) :
    StressRecord :=
  let stress_returns := locSlice returns start end_
  { start := start, end_ := end_, days := stress_returns.length,
    worst_day := pminO stress_returns,
    cumulative_loss := psumO stress_returns,
    avg_daily_loss := pmeanO stress_returns }

/-- Count of (0,0) transitions stated directly over the adjacent pairs of
the series, as the specification words it. -/
def n00spec (bs : List Bool) : ℕ := (bs.zip bs.tail).countP (fun p => !p.1 && !p.2)

/-- Count of (0,1) transitions stated directly over the adjacent pairs. -/
def n01spec (bs : List Bool) : ℕ := (bs.zip bs.tail).countP (fun p => !p.1 && p.2)

/-- Count of (1,0) transitions stated directly over the adjacent pairs. -/
def n10spec (bs : List Bool) : ℕ := (bs.zip bs.tail).countP (fun p => p.1 && !p.2)

/-- Count of (1,1) transitions stated directly over the adjacent pairs. -/
def n11spec (bs : List Bool) : ℕ := (bs.zip bs.tail).countP (fun p => p.1 && p.2)

/-- Statement-side Christoffersen likelihood-ratio statistic, written the
way the specification describes it: adjacent-pair transition counts,
conditional probabilities set to 0 on a zero denominator, a guarded
logarithm treating ln(0) as 0, and LR = -2 (L0 - L1). -/
noncomputable def christSpecLR (bs : List Bool) : ℝ :=
  let n00 := (n00spec bs : ℝ)
  let n01 := (n01spec bs : ℝ)
  let n10 := (n10spec bs : ℝ)
  let n11 := (n11spec bs : ℝ)
  let pi0 := if n00 + n01 = 0 then 0 else n01 / (n00 + n01)
  let pi1 := if n10 + n11 = 0 then 0 else n11 / (n10 + n11)
  let piu := (n01 + n11) / (n00 + n01 + n10 + n11)
  let LR := -2 * (((n00 + n10) * safe_log (1 - piu) + (n01 + n11) * safe_log piu)
    - (n00 * safe_log (1 - pi0) + n01 * safe_log pi0
      + n10 * safe_log (1 - pi1) + n11 * safe_log pi1))
  LR

/-! Helper lemmas about the transition-count fold. -/

lemma foldl_transStep (l : List (Bool × Bool)) (a b c d : ℕ) :
    l.foldl transStep (a, b, c, d) =
      (a + l.countP (fun p => !p.1 && !p.2), b + l.countP (fun p => !p.1 && p.2),
        c + l.countP (fun p => p.1 && !p.2), d + l.countP (fun p => p.1 && p.2)) := by
  induction l generalizing a b c d with
  | nil => simp
  | cons p t ih =>
    obtain ⟨x, y⟩ := p
    cases x <;> cases y <;>
      simp [transStep, List.countP_cons, ih] <;> omega

lemma countTransitions_spec (bs : List Bool) :
    countTransitions bs = (n00spec bs, n01spec bs, n10spec bs, n11spec bs) := by
  simpa [countTransitions, n00spec, n01spec, n10spec, n11spec] using
    foldl_transStep (bs.zip bs.tail) 0 0 0 0

lemma countP_four_sum (l : List (Bool × Bool)) :
    l.countP (fun p => !p.1 && !p.2) + l.countP (fun p => !p.1 && p.2)
      + l.countP (fun p => p.1 && !p.2) + l.countP (fun p => p.1 && p.2) = l.length := by
  induction l with
  | nil => simp
  | cons p t ih =>
    obtain ⟨x, y⟩ := p
    cases x <;> cases y <;> simp [List.countP_cons] <;> omega

lemma countTransitions_sum (bs : List Bool) :
    (countTransitions bs).1 + (countTransitions bs).2.1 + (countTransitions bs).2.2.1
      + (countTransitions bs).2.2.2 = (bs.zip bs.tail).length := by
  rw [countTransitions_spec]
  simpa [n00spec, n01spec, n10spec, n11spec] using countP_four_sum (bs.zip bs.tail)

lemma zip_tail_length (bs : List Bool) : (bs.zip bs.tail).length = bs.length - 1 := by
  rw [List.length_zip, List.length_tail]
  omega

/-- C1: for every breach indicator series and every confidence level, if
the breach count x equals 0 or equals the sample length T, the Kupiec POF
test returns the record with NaN (`none`) statistic and NaN p-value,
observed count x and expected count T * (1 - alpha), skipping the
likelihood-ratio branch. -/
theorem kupiec_degenerate_nan (chi2cdf : ℝ → ℝ) (bs : List Bool) (alpha : ℝ)
    (h : bs.countP (fun b => b) = 0 ∨ bs.countP (fun b => b) = bs.length) :
    kupiec_pof_test chi2cdf bs alpha =
      { LR_stat := none, p_value := none, breaches := bs.countP (fun b => b),
        expected := (bs.length : ℝ) * (1 - alpha) } := by
  simp only [kupiec_pof_test, if_pos h]

/-- Witness for the Kupiec degenerate case at the all-quiet series of
length two and the 99 percent confidence level. -/
theorem kupiec_degenerate_nan_witness :
    ([false, false].countP (fun b => b) = 0 ∨
        [false, false].countP (fun b => b) = [false, false].length) ∧
      kupiec_pof_test (fun _ => 0) [false, false] (99 / 100) =
        { LR_stat := none, p_value := none,
          breaches := [false, false].countP (fun b => b),
          expected := (([false, false].length : ℕ) : ℝ) * (1 - 99 / 100) } :=
  ⟨Or.inl rfl, kupiec_degenerate_nan (fun _ => 0) [false, false] (99 / 100) (Or.inl rfl)⟩

/-- C3 counterexample: on a single-observation series no adjacent pair
exists, every transition count is 0, and the unguarded unconditional
probability divides 0 by 0 as Python integers, raising ZeroDivisionError
instead of applying any 0-probability convention. -/
theorem christoffersen_singleton_raises :
    christoffersen_test (fun _ => 0) [false] = Except.error "ZeroDivisionError" := rfl

/-- C3 amended: for every breach series with at least two observations the
Christoffersen test raises no error: the guarded conditional probabilities
absorb zero denominators, and the only unguarded division (the
unconditional probability) then has a positive denominator. -/
theorem christoffersen_min_two_obs_ok (chi2cdf : ℝ → ℝ) (bs : List Bool)
    (h : 2 ≤ bs.length) :
    ∃ r, christoffersen_test chi2cdf bs = Except.ok r := by
  have hN : ¬((countTransitions bs).1 + (countTransitions bs).2.1 +
      (countTransitions bs).2.2.1 + (countTransitions bs).2.2.2 = 0) := by
    rw [countTransitions_sum, zip_tail_length]
    omega
  cases hE : christoffersen_test chi2cdf bs with
  | ok r => exact ⟨r, rfl⟩
  | error s =>
    simp only [christoffersen_test] at hE
    rw [if_neg hN] at hE
    exact Except.noConfusion hE

/-- Witness for the amended C3 statement at a concrete two-element series. -/
theorem christoffersen_min_two_obs_ok_witness :
    ∃ r, christoffersen_test (fun _ => 0) [false, true] = Except.ok r :=
  christoffersen_min_two_obs_ok (fun _ => 0) [false, true] (by decide)

/-- C5 counterexample: with the Student-t family and nu = 1 supplied, the
function returns a result (the CVaR factor divides by nu - 1 with no
validation) instead of failing with any InvalidParameter error. -/
theorem parametric_t_nu_one_returns :
    parametric_var_cvar [0] [1] (99 / 100) "t" (some 1)
        (fun _ => 0) (fun _ _ => 0) (fun _ _ => 0) =
      Except.ok ([0], [0], [0]) := by
  simp [parametric_var_cvar]

/-- C5 amended: when the Student-t family is requested with a supplied nu,
the computation never fails, whatever the value of nu (including nu ≤ 1):
the source validates only the presence of nu, and the CVaR series divides
by nu - 1 unchecked. -/
theorem parametric_t_supplied_nu_ok (rets sig : List ℝ) (alpha v : ℝ)
    (normPpf : ℝ → ℝ) (tPpf tPdf : ℝ → ℝ → ℝ) (_h : v ≤ 1) :
    parametric_var_cvar rets sig alpha "t" (some v) normPpf tPpf tPdf =
      Except.ok (rets, sig.map (fun s => tPpf alpha v * s),
        sig.map (fun s => tPdf (tPpf alpha v) v / (1 - alpha)
          * ((v + tPpf alpha v ^ 2) / (v - 1)) * s)) := by
  simp [parametric_var_cvar]

/-- Witness for the amended C5 statement at nu = 1. -/
theorem parametric_t_supplied_nu_ok_witness :
    (1 : ℝ) ≤ 1 ∧
      parametric_var_cvar [] [] 0 "t" (some 1)
          (fun _ => 0) (fun _ _ => 0) (fun _ _ => 0) =
        Except.ok ([], [], []) :=
  ⟨le_refl 1, parametric_t_supplied_nu_ok [] [] 0 1
    (fun _ => 0) (fun _ _ => 0) (fun _ _ => 0) (le_refl 1)⟩

/-- C6 counterexample: a raw volatility series of zero mean does not make
the calibrator fail; Python float division by the zero mean produces a
non-finite scale and a full-length series of non-finite entries. -/
theorem calibrate_zero_mean_returns :
    calibrate_volatility [1, 2] [1, -1] = [none, none] := by
  have h : pmeanR [1, -1] = 0 := by
    norm_num [pmeanR, List.sum_cons, List.sum_nil]
  simp [calibrate_volatility, h]

/-- C6 amended: for a raw series of nonzero mean the calibrator returns
raw times (std of the returns divided by the mean of the raw series); for
a zero mean it returns a same-length series of non-finite entries rather
than failing. -/
theorem calibrate_nonzero_mean (rets sig : List ℝ) (h : pmeanR sig ≠ 0) :
    calibrate_volatility rets sig =
      sig.map (fun s => some (s * (pstdR rets / pmeanR sig))) := by
  simp [calibrate_volatility, h]

/-- Witness for the amended C6 statement at concrete series. -/
theorem calibrate_nonzero_mean_witness :
    pmeanR [2] ≠ 0 ∧
      calibrate_volatility [1, 3] [2] =
        [2].map (fun s => some (s * (pstdR [1, 3] / pmeanR [2]))) := by
  have h : pmeanR [2] ≠ 0 := by norm_num [pmeanR, List.sum_cons, List.sum_nil]
  exact ⟨h, calibrate_nonzero_mean [1, 3] [2] h⟩

/-- C7 counterexample: on a window with zero observations the record has
day_count 0 and NaN worst day and average daily loss, but the cumulative
loss is the pandas sum of an empty series, which is 0 rather than NaN. -/
theorem stress_empty_cumulative_zero :
    stress_test_period [] 0 1 =
      { start := 0, end_ := 1, days := 0, worst_day := none,
        cumulative_loss := some 0, avg_daily_loss := none } := by
  simp [stress_test_period, locSlice, pminO, psumO, pmeanO]

/-- C7 amended: a stress window containing zero observations of the
returns series yields, without failing, a record with day_count 0, NaN
worst day, NaN average daily loss, and cumulative loss 0 (the sum of an
empty series). -/
theorem stress_empty_window_record (rets : List (ℕ × ℝ)) (s e : ℕ)
    (h : locSlice rets s e = []) :
    stress_test_period rets s e =
      { start := s, end_ := e, days := 0, worst_day := none,
        cumulative_loss := some 0, avg_daily_loss := none } := by
  simp [stress_test_period, h, pminO, psumO, pmeanO]

/-- Witness for the amended C7 statement: a one-point series dated outside
the requested window. -/
theorem stress_empty_window_record_witness :
    locSlice [(5, 1)] 10 20 = [] ∧
      stress_test_period [(5, 1)] 10 20 =
        { start := 10, end_ := 20, days := 0, worst_day := none,
          cumulative_loss := some 0, avg_daily_loss := none } := by
  have h : locSlice [(5, (1 : ℝ))] 10 20 = [] := rfl
  exact ⟨h, stress_empty_window_record _ _ _ h⟩

/-- C4: for every breach series and window size, the Basel traffic-light
classifier outputs exactly max(0, length - window) entries (truncated
natural subtraction; in particular an empty output, not GREEN defaults,
when the series is no longer than the window), and entry j (for eligible
index i = window + j) classifies the breach sum over the trailing window
[i - window, i): a sum up to 4 is GREEN, 5 through 9 YELLOW, 10 or more
RED. -/
theorem basel_traffic_light_spec (bs : List Bool) (w : ℕ) :
    (rolling_basel_traffic_light bs w).length = bs.length - w ∧
    ∀ j, j < bs.length - w →
      (rolling_basel_traffic_light bs w).getD j "" =
        (if ((bs.drop j).take w).countP (fun b => b) ≤ 4 then "GREEN"
         else if ((bs.drop j).take w).countP (fun b => b) ≤ 9 then "YELLOW"
         else "RED") := by
  constructor
  · simp [rolling_basel_traffic_light]
  · intro j hj
    rw [rolling_basel_traffic_light, List.getD_eq_getElem?_getD, List.getElem?_map,
      List.getElem?_range' _ _ hj]
    simp only [Option.map_some', Option.getD_some, one_mul, Nat.add_sub_cancel_left]

/-- Witness for C4: a four-element series with window two (the first
eligible index classifies GREEN), and a one-element series with the
regulatory window 250, whose output is empty. -/
theorem basel_traffic_light_spec_witness :
    ((rolling_basel_traffic_light [true, true, false, true] 2).length =
        [true, true, false, true].length - 2 ∧
      (∀ j, j < [true, true, false, true].length - 2 →
        (rolling_basel_traffic_light [true, true, false, true] 2).getD j "" =
          (if (([true, true, false, true].drop j).take 2).countP (fun b => b) ≤ 4
           then "GREEN"
           else if (([true, true, false, true].drop j).take 2).countP (fun b => b) ≤ 9
           then "YELLOW"
           else "RED"))) ∧
    (rolling_basel_traffic_light [true] 250).length = [true].length - 250 :=
  ⟨basel_traffic_light_spec [true, true, false, true] 2,
    (basel_traffic_light_spec [true] 250).1⟩

lemma indicator_sum (l : List Bool) :
    (l.map (fun b => if b then (1 : ℝ) else 0)).sum = l.countP (fun b => b) := by
  induction l with
  | nil => simp
  | cons x t ih =>
    cases x <;> simp [List.countP_cons, ih]
    ring

/-- C9: the breach detector marks position i true iff the return lies
strictly below the negated VaR there, and returns as breach rate the mean
of the indicator: the breach count divided by the sample length (NaN,
modelled `none`, on an empty sample). -/
theorem var_breaches_spec (rs vs : List ℝ) (h : rs.length = vs.length) :
    (var_breaches rs vs).1.length = rs.length ∧
    (∀ i, i < rs.length →
      ((var_breaches rs vs).1.getD i false = true ↔ rs.getD i 0 < -(vs.getD i 0))) ∧
    (var_breaches rs vs).2 =
      (if rs.length = 0 then none
       else some (((var_breaches rs vs).1.countP (fun b => b) : ℝ) / (rs.length : ℝ))) := by
  refine ⟨?_, ?_, ?_⟩
  · simp [var_breaches, List.length_zip, h]
  · intro i hi
    have hiv : i < vs.length := h ▸ hi
    have hz : i < (rs.zip vs).length := by rw [List.length_zip]; omega
    simp only [var_breaches]
    rw [List.getD_eq_getElem?_getD, List.getElem?_map, List.getElem?_eq_getElem hz,
      List.getD_eq_getElem?_getD, List.getElem?_eq_getElem hi,
      List.getD_eq_getElem?_getD, List.getElem?_eq_getElem hiv]
    simp only [Option.map_some', Option.getD_some, List.getElem_zip]
    by_cases hlt : rs[i] < -vs[i] <;> simp [hlt]
  · by_cases h0 : rs.length = 0
    · have hrs : rs = [] := List.length_eq_zero.mp h0
      have hvs : vs = [] := List.length_eq_zero.mp (by omega)
      subst hrs
      subst hvs
      simp [var_breaches, pmeanO]
    · have hlenb : (var_breaches rs vs).1.length = rs.length := by
        simp [var_breaches, List.length_zip, h]
      have hne : ¬((var_breaches rs vs).1.map (fun b => if b then (1 : ℝ) else 0)) = [] := by
        intro heq
        apply h0
        have hl := congrArg List.length heq
        simpa [hlenb] using hl
      have hrate : (var_breaches rs vs).2 =
          pmeanO ((var_breaches rs vs).1.map (fun b => if b then (1 : ℝ) else 0)) := rfl
      rw [hrate, pmeanO, if_neg hne, if_neg h0, indicator_sum]
      simp [hlenb]

/-- Witness for C9 at the specification's example: returns
[-0.05, 0.02, -0.01] against VaR [0.03, 0.03, 0.03] give indicator
[true, false, false] and breach rate 1/3. -/
theorem var_breaches_spec_witness :
    ((var_breaches [-(5 / 100), 2 / 100, -(1 / 100)] [3 / 100, 3 / 100, 3 / 100]).1.length =
        ([-(5 / 100), 2 / 100, -(1 / 100)] : List ℝ).length ∧
      (∀ i, i < ([-(5 / 100), 2 / 100, -(1 / 100)] : List ℝ).length →
        ((var_breaches [-(5 / 100), 2 / 100, -(1 / 100)]
              [3 / 100, 3 / 100, 3 / 100]).1.getD i false = true ↔
          ([-(5 / 100), 2 / 100, -(1 / 100)] : List ℝ).getD i 0 <
            -(([3 / 100, 3 / 100, 3 / 100] : List ℝ).getD i 0))) ∧
      (var_breaches [-(5 / 100), 2 / 100, -(1 / 100)] [3 / 100, 3 / 100, 3 / 100]).2 =
        (if ([-(5 / 100), 2 / 100, -(1 / 100)] : List ℝ).length = 0 then none
         else some
          (((var_breaches [-(5 / 100), 2 / 100, -(1 / 100)]
                [3 / 100, 3 / 100, 3 / 100]).1.countP (fun b => b) : ℝ) /
            (([-(5 / 100), 2 / 100, -(1 / 100)] : List ℝ).length : ℝ)))) ∧
      var_breaches [-(5 / 100), 2 / 100, -(1 / 100)] [3 / 100, 3 / 100, 3 / 100] =
        ([true, false, false], some (1 / 3)) :=
  ⟨var_breaches_spec _ _ rfl, by norm_num [var_breaches, pmeanO]; simp⟩

/-- C2 counterexample: at a one-element series no adjacent pair exists and
the test raises a division error rather than returning a statistic. -/
theorem christoffersen_singleton_true_raises :
    christoffersen_test (fun _ => 0) [true] = Except.error "ZeroDivisionError" := rfl

/-- C2 amended: for every breach series with at least two observations,
the Christoffersen test returns exactly the record described by the
specification: transition counts scanned over adjacent pairs (the first
observation excluded), conditional probabilities set to 0 on a zero
denominator, the guarded logarithm treating ln(0) as 0, the statistic
LR = -2 (L0 - L1), and p-value 1 - chi2(LR); with fewer than two
observations the source raises instead. -/
theorem christoffersen_matches_spec (chi2cdf : ℝ → ℝ) (bs : List Bool)
    (h : 2 ≤ bs.length) :
    christoffersen_test chi2cdf bs =
      Except.ok
        { LR_stat := christSpecLR bs,
          p_value := 1 - chi2cdf (christSpecLR bs) } := by
  have hN : ¬((countTransitions bs).1 + (countTransitions bs).2.1 +
      (countTransitions bs).2.2.1 + (countTransitions bs).2.2.2 = 0) := by
    rw [countTransitions_sum, zip_tail_length]
    omega
  have g0 : (if n00spec bs + n01spec bs > 0
        then (n01spec bs : ℝ) / ((n00spec bs : ℝ) + (n01spec bs : ℝ)) else 0) =
      (if ((n00spec bs : ℝ) + (n01spec bs : ℝ)) = 0 then 0
        else (n01spec bs : ℝ) / ((n00spec bs : ℝ) + (n01spec bs : ℝ))) := by
    by_cases hz : n00spec bs + n01spec bs = 0
    · have h0 : n00spec bs = 0 ∧ n01spec bs = 0 := by omega
      simp [h0.1, h0.2]
    · have hpos : 0 < n00spec bs + n01spec bs := Nat.pos_of_ne_zero hz
      have hr : ¬(((n00spec bs : ℝ) + (n01spec bs : ℝ)) = 0) := by
        rw [← Nat.cast_add]
        exact_mod_cast hz
      simp [hpos, hr]
  have g1 : (if n10spec bs + n11spec bs > 0
        then (n11spec bs : ℝ) / ((n10spec bs : ℝ) + (n11spec bs : ℝ)) else 0) =
      (if ((n10spec bs : ℝ) + (n11spec bs : ℝ)) = 0 then 0
        else (n11spec bs : ℝ) / ((n10spec bs : ℝ) + (n11spec bs : ℝ))) := by
    by_cases hz : n10spec bs + n11spec bs = 0
    · have h0 : n10spec bs = 0 ∧ n11spec bs = 0 := by omega
      simp [h0.1, h0.2]
    · have hpos : 0 < n10spec bs + n11spec bs := Nat.pos_of_ne_zero hz
      have hr : ¬(((n10spec bs : ℝ) + (n11spec bs : ℝ)) = 0) := by
        rw [← Nat.cast_add]
        exact_mod_cast hz
      simp [hpos, hr]
  simp only [christoffersen_test]
  rw [if_neg hN]
  simp only [countTransitions_spec bs]
  simp only [christSpecLR]
  rw [g0, g1]

/-- Witness for the amended C2 statement at a concrete two-element series. -/
theorem christoffersen_matches_spec_witness :
    2 ≤ [false, true].length ∧
      christoffersen_test (fun _ => 0) [false, true] =
        Except.ok
          { LR_stat := christSpecLR [false, true],
            p_value := 1 - (0 : ℝ) } :=
  ⟨by decide, christoffersen_matches_spec (fun _ => 0) [false, true] (by decide)⟩

/-! Helper lemmas about the guarded logarithm, towards the sign of the
Christoffersen statistic. -/

lemma safe_log_of_pos {x : ℝ} (h : 0 < x) : safe_log x = Real.log x := if_pos h

lemma safe_log_one : safe_log 1 = 0 := by simp [safe_log]

lemma safe_log_nonpos {x : ℝ} (h : x ≤ 1) : safe_log x ≤ 0 := by
  unfold safe_log
  split_ifs with hx
  · exact Real.log_nonpos (le_of_lt hx) h
  · exact le_refl 0

/-- Gibbs-type row inequality: against any candidate probability q of its
column, a row (a, b) of transition counts scores at most what it scores
against its own empirical frequency b / (a + b), under the guarded-log
convention; the side conditions say that a vanishing q or 1 - q only
occurs with a vanishing coefficient. -/
lemma gibbs_row (a b : ℕ) (q : ℝ) (hq0 : 0 ≤ q) (hq1 : q ≤ 1)
    (h0 : q = 0 → b = 0) (h1 : q = 1 → a = 0) :
    (a : ℝ) * safe_log (1 - q) + (b : ℝ) * safe_log q ≤
      (a : ℝ) * safe_log (1 - (if a + b > 0 then (b : ℝ) / ((a : ℝ) + (b : ℝ)) else 0))
        + (b : ℝ) * safe_log (if a + b > 0 then (b : ℝ) / ((a : ℝ) + (b : ℝ)) else 0) := by
  rcases Nat.eq_zero_or_pos (a + b) with hab | hab
  · have ha : a = 0 := by omega
    have hb : b = 0 := by omega
    simp [ha, hb]
  · rw [if_pos hab]
    rcases Nat.eq_zero_or_pos b with hb | hb
    · have hsl : safe_log (1 - q) ≤ 0 := safe_log_nonpos (by linarith)
      simp [hb, safe_log_one]
      nlinarith [hsl, (Nat.cast_nonneg a : (0 : ℝ) ≤ (a : ℝ))]
    · rcases Nat.eq_zero_or_pos a with ha | ha
      · have hbR : (0 : ℝ) < (b : ℝ) := by exact_mod_cast hb
        have hsl : safe_log q ≤ 0 := safe_log_nonpos hq1
        simp [ha, div_self (ne_of_gt hbR), safe_log_one]
        nlinarith [hsl, hbR.le]
      · have haR : (0 : ℝ) < (a : ℝ) := by exact_mod_cast ha
        have hbR : (0 : ℝ) < (b : ℝ) := by exact_mod_cast hb
        have hnR : (0 : ℝ) < (a : ℝ) + (b : ℝ) := by linarith
        have hq0' : 0 < q := by
          rcases lt_or_eq_of_le hq0 with hlt | heq
          · exact hlt
          · exact absurd (h0 heq.symm) (by omega)
        have hq1' : q < 1 := by
          rcases lt_or_eq_of_le hq1 with hlt | heq
          · exact hlt
          · exact absurd (h1 heq) (by omega)
        have hπpos : 0 < (b : ℝ) / ((a : ℝ) + (b : ℝ)) := div_pos hbR hnR
        have e1 : 1 - (b : ℝ) / ((a : ℝ) + (b : ℝ)) = (a : ℝ) / ((a : ℝ) + (b : ℝ)) := by
          field_simp
        rw [e1, safe_log_of_pos (by linarith : (0 : ℝ) < 1 - q), safe_log_of_pos hq0',
          safe_log_of_pos (div_pos haR hnR), safe_log_of_pos hπpos]
        have k1 : Real.log ((1 - q) * ((a : ℝ) + (b : ℝ)) / (a : ℝ)) ≤
            (1 - q) * ((a : ℝ) + (b : ℝ)) / (a : ℝ) - 1 :=
          Real.log_le_sub_one_of_pos (div_pos (mul_pos (by linarith) hnR) haR)
        have k2 : Real.log (q * ((a : ℝ) + (b : ℝ)) / (b : ℝ)) ≤
            q * ((a : ℝ) + (b : ℝ)) / (b : ℝ) - 1 :=
          Real.log_le_sub_one_of_pos (div_pos (mul_pos hq0' hnR) hbR)
        have l1 : Real.log ((1 - q) * ((a : ℝ) + (b : ℝ)) / (a : ℝ)) =
            Real.log (1 - q) - Real.log ((a : ℝ) / ((a : ℝ) + (b : ℝ))) := by
          rw [Real.log_div (by nlinarith : (1 - q) * ((a : ℝ) + (b : ℝ)) ≠ 0) haR.ne',
            Real.log_mul (by linarith : (1 : ℝ) - q ≠ 0) hnR.ne',
            Real.log_div haR.ne' hnR.ne']
          ring
        have l2 : Real.log (q * ((a : ℝ) + (b : ℝ)) / (b : ℝ)) =
            Real.log q - Real.log ((b : ℝ) / ((a : ℝ) + (b : ℝ))) := by
          rw [Real.log_div (by nlinarith : q * ((a : ℝ) + (b : ℝ)) ≠ 0) hbR.ne',
            Real.log_mul (by linarith : q ≠ 0) hnR.ne',
            Real.log_div hbR.ne' hnR.ne']
          ring
        have m1 : (a : ℝ) * (Real.log (1 - q) - Real.log ((a : ℝ) / ((a : ℝ) + (b : ℝ)))) ≤
            (1 - q) * ((a : ℝ) + (b : ℝ)) - (a : ℝ) := by
          have hm := mul_le_mul_of_nonneg_left k1 haR.le
          rw [l1] at hm
          calc (a : ℝ) * (Real.log (1 - q) - Real.log ((a : ℝ) / ((a : ℝ) + (b : ℝ))))
              ≤ (a : ℝ) * ((1 - q) * ((a : ℝ) + (b : ℝ)) / (a : ℝ) - 1) := hm
            _ = (1 - q) * ((a : ℝ) + (b : ℝ)) - (a : ℝ) := by field_simp
        have m2 : (b : ℝ) * (Real.log q - Real.log ((b : ℝ) / ((a : ℝ) + (b : ℝ)))) ≤
            q * ((a : ℝ) + (b : ℝ)) - (b : ℝ) := by
          have hm := mul_le_mul_of_nonneg_left k2 hbR.le
          rw [l2] at hm
          calc (b : ℝ) * (Real.log q - Real.log ((b : ℝ) / ((a : ℝ) + (b : ℝ))))
              ≤ (b : ℝ) * (q * ((a : ℝ) + (b : ℝ)) / (b : ℝ) - 1) := hm
            _ = q * ((a : ℝ) + (b : ℝ)) - (b : ℝ) := by field_simp
        nlinarith [m1, m2]

/-- Restricted-versus-unrestricted log-likelihood comparison for the
Christoffersen statistic: with at least one transition pair, L0 ≤ L1
under the guarded-log convention, because every guarded ln(0) term
carries a zero coefficient. -/
lemma christ_L0_le_L1 (n00 n01 n10 n11 : ℕ) (hN : 0 < n00 + n01 + n10 + n11) :
    ((n00 : ℝ) + (n10 : ℝ)) *
        safe_log (1 - ((n01 : ℝ) + (n11 : ℝ))
          / ((n00 : ℝ) + (n01 : ℝ) + (n10 : ℝ) + (n11 : ℝ)))
      + ((n01 : ℝ) + (n11 : ℝ)) *
        safe_log (((n01 : ℝ) + (n11 : ℝ))
          / ((n00 : ℝ) + (n01 : ℝ) + (n10 : ℝ) + (n11 : ℝ))) ≤
    (n00 : ℝ) * safe_log (1 - (if n00 + n01 > 0
        then (n01 : ℝ) / ((n00 : ℝ) + (n01 : ℝ)) else 0))
      + (n01 : ℝ) * safe_log (if n00 + n01 > 0
        then (n01 : ℝ) / ((n00 : ℝ) + (n01 : ℝ)) else 0)
      + (n10 : ℝ) * safe_log (1 - (if n10 + n11 > 0
        then (n11 : ℝ) / ((n10 : ℝ) + (n11 : ℝ)) else 0))
      + (n11 : ℝ) * safe_log (if n10 + n11 > 0
        then (n11 : ℝ) / ((n10 : ℝ) + (n11 : ℝ)) else 0) := by
  have hNR : (0 : ℝ) < (n00 : ℝ) + (n01 : ℝ) + (n10 : ℝ) + (n11 : ℝ) := by
    exact_mod_cast hN
  set q : ℝ := ((n01 : ℝ) + (n11 : ℝ))
    / ((n00 : ℝ) + (n01 : ℝ) + (n10 : ℝ) + (n11 : ℝ)) with hq
  have hnum : (0 : ℝ) ≤ (n01 : ℝ) + (n11 : ℝ) := by positivity
  have hq0 : 0 ≤ q := by
    rw [hq]
    exact div_nonneg hnum hNR.le
  have hq1 : q ≤ 1 := by
    rw [hq, div_le_one hNR]
    have h00 : (0 : ℝ) ≤ (n00 : ℝ) := Nat.cast_nonneg n00
    have h10 : (0 : ℝ) ≤ (n10 : ℝ) := Nat.cast_nonneg n10
    linarith
  have hqzero : q = 0 → (n01 : ℝ) + (n11 : ℝ) = 0 := by
    intro hz
    rw [hq, div_eq_zero_iff] at hz
    rcases hz with hz | hz
    · exact hz
    · exact absurd hz hNR.ne'
  have hqone : q = 1 → (n00 : ℝ) + (n10 : ℝ) = 0 := by
    intro hz
    rw [hq, div_eq_one_iff_eq hNR.ne'] at hz
    linarith
  have h01 : (0 : ℝ) ≤ (n01 : ℝ) := Nat.cast_nonneg n01
  have h11 : (0 : ℝ) ≤ (n11 : ℝ) := Nat.cast_nonneg n11
  have h00 : (0 : ℝ) ≤ (n00 : ℝ) := Nat.cast_nonneg n00
  have h10 : (0 : ℝ) ≤ (n10 : ℝ) := Nat.cast_nonneg n10
  have hrow0 := gibbs_row n00 n01 q hq0 hq1
    (fun hz => by
      have := hqzero hz
      exact_mod_cast (by linarith : (n01 : ℝ) = 0))
    (fun hz => by
      have := hqone hz
      exact_mod_cast (by linarith : (n00 : ℝ) = 0))
  have hrow1 := gibbs_row n10 n11 q hq0 hq1
    (fun hz => by
      have := hqzero hz
      exact_mod_cast (by linarith : (n11 : ℝ) = 0))
    (fun hz => by
      have := hqone hz
      exact_mod_cast (by linarith : (n10 : ℝ) = 0))
  have hsplit : ((n00 : ℝ) + (n10 : ℝ)) * safe_log (1 - q)
      + ((n01 : ℝ) + (n11 : ℝ)) * safe_log q =
      ((n00 : ℝ) * safe_log (1 - q) + (n01 : ℝ) * safe_log q)
        + ((n10 : ℝ) * safe_log (1 - q) + (n11 : ℝ) * safe_log q) := by
    ring
  rw [hsplit]
  linarith [hrow0, hrow1]

/-- C10: for every breach indicator series with at least two observations
the Christoffersen likelihood-ratio statistic is non-negative: under the
guarded-log convention every ln(0) term appears with a zero coefficient,
so the unrestricted log-likelihood L1 dominates the restricted L0 and
LR = -2 (L0 - L1) ≥ 0. -/
theorem christoffersen_LR_nonneg (chi2cdf : ℝ → ℝ) (bs : List Bool)
    (h : 2 ≤ bs.length) :
    ∃ r, christoffersen_test chi2cdf bs = Except.ok r ∧ 0 ≤ r.LR_stat := by
  have hN : ¬((countTransitions bs).1 + (countTransitions bs).2.1 +
      (countTransitions bs).2.2.1 + (countTransitions bs).2.2.2 = 0) := by
    rw [countTransitions_sum, zip_tail_length]
    omega
  have hNpos : 0 < (countTransitions bs).1 + (countTransitions bs).2.1 +
      (countTransitions bs).2.2.1 + (countTransitions bs).2.2.2 :=
    Nat.pos_of_ne_zero hN
  simp only [christoffersen_test]
  rw [if_neg hN]
  refine ⟨_, rfl, ?_⟩
  have key := christ_L0_le_L1 (countTransitions bs).1 (countTransitions bs).2.1
    (countTransitions bs).2.2.1 (countTransitions bs).2.2.2 hNpos
  dsimp only
  linarith [key]

/-- Witness for C10 at a concrete two-element series, where the statistic
evaluates to 0. -/
theorem christoffersen_LR_nonneg_witness :
    ∃ r, christoffersen_test (fun _ => 0) [true, false] = Except.ok r ∧ 0 ≤ r.LR_stat :=
  christoffersen_LR_nonneg (fun _ => 0) [true, false] (by decide)

/-! Analysis of the standard normal density towards the Mills-ratio
inequality behind the CVaR-versus-VaR comparison. -/

lemma normalPDF_pos (x : ℝ) : 0 < normalPDF x := by
  unfold normalPDF
  positivity

lemma normalPDF_eq (x : ℝ) :
    normalPDF x = Real.exp (-(1 / 2) * x ^ 2) * (Real.sqrt (2 * Real.pi))⁻¹ := by
  unfold normalPDF
  rw [div_eq_mul_inv]
  congr 2
  ring

lemma integrable_normalPDF : MeasureTheory.Integrable normalPDF := by
  have h := (integrable_exp_neg_mul_sq (by norm_num : (0 : ℝ) < 1 / 2)).mul_const
    (Real.sqrt (2 * Real.pi))⁻¹
  refine h.congr ?_
  filter_upwards with x
  rw [normalPDF_eq]

lemma integral_normalPDF : ∫ x, normalPDF x = 1 := by
  have h1 : ∫ x, normalPDF x =
      (∫ x, Real.exp (-(1 / 2) * x ^ 2)) * (Real.sqrt (2 * Real.pi))⁻¹ := by
    rw [← MeasureTheory.integral_mul_right]
    apply MeasureTheory.integral_congr_ae
    filter_upwards with x
    rw [normalPDF_eq]
  rw [h1, integral_gaussian, show Real.pi / (1 / 2) = 2 * Real.pi by ring]
  exact mul_inv_cancel₀ (by positivity)

lemma integral_Ioi_normalPDF (z : ℝ) :
    ∫ t in Set.Ioi z, normalPDF t = 1 - normalCDF z := by
  have hsum := MeasureTheory.setIntegral_union (Set.Iic_disjoint_Ioi (le_refl z))
    measurableSet_Ioi integrable_normalPDF.integrableOn integrable_normalPDF.integrableOn
  rw [Set.Iic_union_Ioi, MeasureTheory.setIntegral_univ, integral_normalPDF] at hsum
  unfold normalCDF
  linarith

lemma integrable_id_mul_normalPDF : MeasureTheory.Integrable (fun t : ℝ => t * normalPDF t) := by
  have h := (integrable_mul_exp_neg_mul_sq (by norm_num : (0 : ℝ) < 1 / 2)).mul_const
    (Real.sqrt (2 * Real.pi))⁻¹
  refine h.congr ?_
  filter_upwards with x
  rw [normalPDF_eq]
  ring

lemma hasDerivAt_neg_normalPDF (t : ℝ) :
    HasDerivAt (fun u : ℝ => -normalPDF u) (t * normalPDF t) t := by
  have h1 : HasDerivAt (fun u : ℝ => -(u ^ 2) / 2) (-t) t := by
    have h := ((hasDerivAt_pow 2 t).neg).div_const 2
    convert h using 1
    simp [pow_one]
    ring
  have h2 := h1.exp
  have h3 := (h2.div_const (Real.sqrt (2 * Real.pi))).neg
  simp only [normalPDF]
  convert h3 using 1
  ring

lemma tendsto_neg_normalPDF_atTop :
    Filter.Tendsto (fun t : ℝ => -normalPDF t) Filter.atTop (nhds 0) := by
  have h1 : Filter.Tendsto (fun t : ℝ => -(t ^ 2) / 2) Filter.atTop Filter.atBot := by
    apply (Filter.tendsto_div_const_atBot_of_pos (by norm_num : (0 : ℝ) < 2)).mpr
    exact Filter.tendsto_neg_atTop_atBot.comp (Filter.tendsto_pow_atTop (by norm_num))
  have h2 : Filter.Tendsto (fun t : ℝ => Real.exp (-(t ^ 2) / 2)) Filter.atTop (nhds 0) :=
    Real.tendsto_exp_atBot.comp h1
  have h3 := (h2.div_const (Real.sqrt (2 * Real.pi))).neg
  simp only [normalPDF, zero_div, neg_zero] at h3 ⊢
  exact h3

lemma integral_Ioi_id_mul_normalPDF (z : ℝ) :
    ∫ t in Set.Ioi z, t * normalPDF t = normalPDF z := by
  have hFTC := MeasureTheory.integral_Ioi_of_hasDerivAt_of_tendsto'
    (fun x (_ : x ∈ Set.Ici z) => hasDerivAt_neg_normalPDF x)
    integrable_id_mul_normalPDF.integrableOn
    tendsto_neg_normalPDF_atTop
  simpa using hFTC

lemma integrableOn_sub_mul_normalPDF (z : ℝ) :
    MeasureTheory.IntegrableOn (fun t : ℝ => (t - z) * normalPDF t) (Set.Ioi z) := by
  have h := integrable_id_mul_normalPDF.sub (integrable_normalPDF.const_mul z)
  have h2 : MeasureTheory.Integrable (fun t : ℝ => (t - z) * normalPDF t) := by
    refine h.congr ?_
    filter_upwards with x
    simp only [Pi.sub_apply]
    ring
  exact h2.integrableOn

lemma integral_Ioi_sub_mul_normalPDF_pos (z : ℝ) :
    0 < ∫ t in Set.Ioi z, (t - z) * normalPDF t := by
  have hnn : 0 ≤ᵐ[MeasureTheory.volume.restrict (Set.Ioi z)]
      fun t : ℝ => (t - z) * normalPDF t := by
    refine (MeasureTheory.ae_restrict_iff' measurableSet_Ioi).2
      (Filter.Eventually.of_forall ?_)
    intro t ht
    have hzt : z < t := ht
    exact mul_nonneg (by linarith) (normalPDF_pos t).le
  rw [MeasureTheory.setIntegral_pos_iff_support_of_nonneg_ae hnn
    (integrableOn_sub_mul_normalPDF z)]
  have hsup : Function.support (fun t : ℝ => (t - z) * normalPDF t) ∩ Set.Ioi z =
      Set.Ioi z := by
    refine Set.inter_eq_right.mpr ?_
    intro t ht
    have hzt : z < t := ht
    exact mul_ne_zero (sub_ne_zero.mpr (ne_of_gt hzt)) (normalPDF_pos t).ne'
  rw [hsup, Real.volume_Ioi]
  exact ENNReal.zero_lt_top

/-- Mills-ratio inequality for the standard normal law: for every real z,
z (1 - Phi(z)) < phi(z). -/
lemma mills_ineq (z : ℝ) : z * (1 - normalCDF z) < normalPDF z := by
  have h1 := integral_Ioi_normalPDF z
  have h2 := integral_Ioi_id_mul_normalPDF z
  have h3 := integral_Ioi_sub_mul_normalPDF_pos z
  have hsplit : ∫ t in Set.Ioi z, (t - z) * normalPDF t =
      (∫ t in Set.Ioi z, t * normalPDF t) - z * ∫ t in Set.Ioi z, normalPDF t := by
    rw [← MeasureTheory.integral_mul_left,
      ← MeasureTheory.integral_sub integrable_id_mul_normalPDF.integrableOn
        (integrable_normalPDF.integrableOn.const_mul z)]
    apply MeasureTheory.integral_congr_ae
    filter_upwards with x
    ring
  rw [hsplit, h1, h2] at h3
  linarith

lemma normalCDF_zero : normalCDF 0 = 1 / 2 := by
  have heven : ∀ x : ℝ, normalPDF (-x) = normalPDF x := by
    intro x
    unfold normalPDF
    rw [neg_sq]
  have hcomp := integral_comp_neg_Ioi (0 : ℝ) normalPDF
  simp only [neg_zero] at hcomp
  have h1 : ∫ t in Set.Ioi (0 : ℝ), normalPDF t = normalCDF 0 := by
    unfold normalCDF
    rw [← hcomp]
    apply MeasureTheory.integral_congr_ae
    filter_upwards with x
    rw [heven]
  have h2 := integral_Ioi_normalPDF 0
  rw [h1] at h2
  linarith

/-- C8: under the Normal family, for every confidence level alpha in (0,1)
and every positive volatility entry, the computed CVaR strictly exceeds
the computed VaR: with z the standard normal quantile at alpha (a point
with Phi(z) = alpha), phi(z)/(1-alpha) sigma > z sigma. -/
theorem normal_cvar_gt_var (rets sig : List ℝ) (alpha : ℝ) (normPpf : ℝ → ℝ)
    (tPpf tPdf : ℝ → ℝ → ℝ) (_h1 : 0 < alpha) (h2 : alpha < 1)
    (hppf : normalCDF (normPpf alpha) = alpha)
    (hsig : ∀ s ∈ sig, 0 < s) (i : ℕ) (hi : i < sig.length) :
    parametric_var_cvar rets sig alpha "normal" none normPpf tPpf tPdf =
      Except.ok (rets, sig.map (fun s => normPpf alpha * s),
        sig.map (fun s => normalPDF (normPpf alpha) / (1 - alpha) * s)) ∧
    (sig.map (fun s => normPpf alpha * s)).getD i 0 <
      (sig.map (fun s => normalPDF (normPpf alpha) / (1 - alpha) * s)).getD i 0 := by
  constructor
  · simp [parametric_var_cvar]
  · rw [List.getD_eq_getElem?_getD, List.getElem?_map, List.getElem?_eq_getElem hi,
      List.getD_eq_getElem?_getD, List.getElem?_map, List.getElem?_eq_getElem hi]
    simp only [Option.map_some', Option.getD_some]
    have hz := mills_ineq (normPpf alpha)
    rw [hppf] at hz
    have hpos : 0 < sig[i] := hsig _ (List.getElem_mem hi)
    have hfrac : normPpf alpha < normalPDF (normPpf alpha) / (1 - alpha) := by
      rw [lt_div_iff₀ (by linarith : (0 : ℝ) < 1 - alpha)]
      linarith
    exact mul_lt_mul_of_pos_right hfrac hpos

/-- Witness for C8 at the median confidence level alpha = 1/2, where the
quantile is 0, VaR is 0 and CVaR is positive. -/
theorem normal_cvar_gt_var_witness :
    parametric_var_cvar [] [1] (1 / 2) "normal" none
        (fun _ => 0) (fun _ _ => 0) (fun _ _ => 0) =
      Except.ok ([], [1].map (fun s => (0 : ℝ) * s),
        [1].map (fun s => normalPDF 0 / (1 - 1 / 2) * s)) ∧
    (([1] : List ℝ).map (fun s => (0 : ℝ) * s)).getD 0 0 <
      (([1] : List ℝ).map (fun s => normalPDF 0 / (1 - 1 / 2) * s)).getD 0 0 :=
  normal_cvar_gt_var [] [1] (1 / 2) (fun _ => 0) (fun _ _ => 0) (fun _ _ => 0)
    (by norm_num) (by norm_num) normalCDF_zero
    (by
      intro s hs
      rw [List.mem_singleton] at hs
      rw [hs]
      norm_num)
    0 (by norm_num)
